import Mathlib

/-!
Verification development for the interactive sales-by-expansion terminal tool
(`salesByExpansion.js`): shallow embedding of its data model, aggregation
engine, navigation state machine, list-renderer clamping, and raw-input
escape-sequence decoder, together with theorems settling the specification
claims about them.

Conventions of the embedding:
* JS numbers used as integers (quantities, cents, cursor, scroll offset,
  viewport height) are modelled as `Int`; the dollar `price` fallback field,
  a JS float, is modelled as `Rat` with `Math.round` as `⌊q + 1/2⌋`.
* Missing (`undefined`/`null`) JSON fields are `Option.none`; the JS `??`
  operator is `Option.getD`, and JS `||` on strings (which also treats the
  empty string as falsy) is `jsOrStr`.
* A JS `Map` is an insertion-ordered association list; `Map.set` on an
  existing key updates in place, otherwise appends.
* JS `Array.prototype.sort` is stable; it is embedded as the stable
  `List.insertionSort` (any two stable sorts of the same total preorder agree).
* `String.toLowerCase`, `slice(0,-1)` and prefix tests are embedded by
  structurally recursive functions over the character list so that concrete
  states evaluate by kernel reduction.
-/

namespace CardTraderSales

/-! ## Data model (spec §3, `salesByExpansion.js` top of file) -/

/-- A game in the two-level hierarchy: `{ id: cat.game_id, name }`. -/
structure Game where
  id : Nat
  name : String
deriving DecidableEq

/-- An expansion (set) of a game, as returned by the expansions endpoint. -/
structure Expansion where
  id : Nat
  game_id : Nat
  name : String
deriving DecidableEq

/-- One line item of an order, with the loosely-structured optional fields the
aggregation code probes: `item.expansion`, `item.name`, `item.blueprint?.name`,
`item.quantity`, `item.seller_price?.cents`, `item.price_cents`, `item.price`
(the last one a dollar amount, hence `Rat`). -/
structure LineItem where
  expansion : Option String
  name : Option String
  blueprintName : Option String
  quantity : Option Int
  sellerPriceCents : Option Int
  price_cents : Option Int
  price : Option Rat
deriving DecidableEq

/-- A transaction record ("order"): the code reads
`order.order_items || order.items || []`. -/
structure Order where
  order_items : Option (List LineItem)
  items : Option (List LineItem)
deriving DecidableEq

/-- JS `a || b` for an optional string `a`: missing values and the empty
string are falsy. -/
def jsOrStr : Option String → String → String
  | some s, d => if s = "" then d else s
  | none, d => d

/-- JS `String.prototype.toLowerCase` (ASCII case mapping, as `Char.toLower`). -/
def jsToLower (s : String) : String := ⟨s.data.map Char.toLower⟩

/-- JS `str.slice(0, -1)`: drop the last character. -/
def jsDropLast (s : String) : String := ⟨s.data.dropLast⟩

/-- `order.order_items || order.items || []` (an array, even empty, is truthy). -/
def orderItems (o : Order) : List LineItem :=
  match o.order_items with
  | some l => l
  | none => o.items.getD []

/-- JS `Math.round` on an exact rational: round half toward positive infinity. -/
def jsRound (q : Rat) : Int := ⌊q + 1 / 2⌋

/-- Price resolution chain of the aggregation loop:
`item.seller_price?.cents ?? item.price_cents ??
 (typeof item.price === 'number' ? Math.round(item.price * 100) : 0)`. -/
def resolvePriceCents (it : LineItem) : Int :=
  match it.sellerPriceCents with
  | some c => c
  | none =>
    match it.price_cents with
    | some c => c
    | none =>
      match it.price with
      | some p => jsRound (p * 100)
      | none => 0

/-- `item.name || item.blueprint?.name || 'Unknown'`. -/
def displayName (it : LineItem) : String :=
  jsOrStr it.name (jsOrStr it.blueprintName "Unknown")

/-! ## Aggregation engine (`renderResults`, lines 219–294) -/

/-- One entry of the per-card breakdown `Map`: name ↦ `{qty, cents}`. -/
structure BEntry where
  name : String
  qty : Int
  cents : Int
deriving DecidableEq

/-- `cardBreakdown.set(name, {qty: prev.qty + qty, cents: prev.cents + priceCents*qty})`
on an insertion-ordered map: update in place if the key exists, else append. -/
def bdInsert (bd : List BEntry) (n : String) (q c : Int) : List BEntry :=
  match bd with
  | [] => [⟨n, q, c⟩]
  | e :: rest =>
    if e.name = n then ⟨e.name, e.qty + q, e.cents + c⟩ :: rest
    else e :: bdInsert rest n q c

/-- Accumulator of the scan over one marked expansion. -/
structure ExpAgg where
  totalCents : Int
  totalQty : Int
  breakdown : List BEntry
deriving DecidableEq

/-- The match test of the scan:
`(item.expansion || '').toLowerCase() === expName`, where `expName` is already
lowercased by the caller. -/
def matchesExp (expName : String) (it : LineItem) : Bool :=
  (jsToLower (jsOrStr it.expansion "")) == expName

/-- Body of the scan for a matching item: accumulate totals and the breakdown. -/
def scanStep (acc : ExpAgg) (it : LineItem) : ExpAgg :=
  let q := it.quantity.getD 1
  let c := resolvePriceCents it
  { totalCents := acc.totalCents + c * q
    totalQty := acc.totalQty + q
    breakdown := bdInsert acc.breakdown (displayName it) q (c * q) }

/-- Per-item step of the scan: only matching items contribute. -/
def scanItem (expName : String) (acc : ExpAgg) (it : LineItem) : ExpAgg :=
  if matchesExp expName it then scanStep acc it else acc

/-- The double loop `for (const order of orders) for (const item of items)`
accumulating `totalCents`, `totalQty` and `cardBreakdown` for one expansion. -/
def aggregateExpansion (expName : String) (orders : List Order) : ExpAgg :=
  orders.foldl (fun acc o => (orderItems o).foldl (scanItem expName) acc) ⟨0, 0, []⟩

/-- One element of the `results` array pushed per marked expansion. -/
structure ResultRow where
  id : Nat
  name : String
  totalCents : Int
  totalQty : Int
  cardBreakdown : List BEntry
deriving DecidableEq

/-- The per-expansion result: resolve the expansion (`expansions.find`), lowercase
its name (`exp?.name?.toLowerCase() || ''`), scan all orders. -/
def computeRow (E : List Expansion) (orders : List Order) (expId : Nat) : ResultRow :=
  let found := E.find? (fun e => e.id == expId)
  let expName := match found with | some e => jsToLower e.name | none => ""
  let agg := aggregateExpansion expName orders
  { id := expId
    name := match found with
            | some e => if e.name = "" then "Unknown" else e.name
            | none => "Unknown"
    totalCents := agg.totalCents
    totalQty := agg.totalQty
    cardBreakdown := agg.breakdown }

/-- `for (const expId of markedExpansions)` in insertion order. -/
def computeResults (E : List Expansion) (orders : List Order) (marked : List Nat) :
    List ResultRow :=
  marked.map (computeRow E orders)

/-- The display comparator `(a, b) => b[1].cents - a[1].cents`: `a` may precede
`b` exactly when `b.cents ≤ a.cents` (descending revenue). -/
def centsDesc (a b : BEntry) : Prop := b.cents ≤ a.cents

instance : DecidableRel centsDesc := fun a b => Int.decLe b.cents a.cents

instance : IsTotal BEntry centsDesc := ⟨fun a b => le_total b.cents a.cents⟩

instance : IsTrans BEntry centsDesc := ⟨fun _ _ _ h1 h2 => le_trans h2 h1⟩

/-- The rendered top-5 breakdown:
`[...r.cardBreakdown.entries()].sort((a,b) => b[1].cents - a[1].cents).slice(0, 5)`
with JS's stable sort (embedded as stable insertion sort). -/
def displayedBreakdown (r : ResultRow) : List BEntry :=
  (r.cardBreakdown.insertionSort centsDesc).take 5

/-- The line items of all orders, flattened in scan order, restricted to those
matching a (lowercased) expansion name. -/
def matchingItems (lowName : String) (orders : List Order) : List LineItem :=
  (orders.flatMap orderItems).filter (matchesExp lowName)

/-- Keys of a JS `Map` in insertion order: the first occurrence of each key, in
first-encountered order. -/
def firstOccs (l : List String) : List String :=
  l.foldl (fun ns n => if n ∈ ns then ns else ns ++ [n]) []

/-- Total quantity of the line items of a list carrying a given display name
(a missing quantity field counting as 1, as in the scan). -/
def itemsQtySum (items : List LineItem) (n : String) : Int :=
  ((items.filter (fun it => displayName it = n)).map (fun it => it.quantity.getD 1)).sum

/-- Total revenue (price × quantity, in minor units) of the line items of a
list carrying a given display name. -/
def itemsCentsSum (items : List LineItem) (n : String) : Int :=
  ((items.filter (fun it => displayName it = n)).map
    (fun it => resolvePriceCents it * it.quantity.getD 1)).sum

/-! ## Navigation state machine and renderer clamp (`handleInput`, `render*`) -/

/-- `state ∈ {'game-select', 'expansion-select', 'results'}`. -/
inductive Screen
  | gameSelect
  | expansionSelect
  | results
deriving DecidableEq

/-- The mutable TUI state captured by the input callbacks. -/
structure UIState where
  screen : Screen
  selectedGameId : Option Nat
  cursor : Int
  scrollOffset : Int
  filterMode : Bool
  filterText : String
  marked : List Nat
deriving DecidableEq

/-- The initial state of the program. -/
def initState : UIState :=
  { screen := .gameSelect, selectedGameId := none, cursor := 0, scrollOffset := 0
    filterMode := false, filterText := "", marked := [] }

/-- `hay.includes(sub)` on character lists: some suffix of `hay` starts with `sub`. -/
def listContainsSub (sub : List Char) : List Char → Bool
  | [] => sub.isEmpty
  | c :: t => sub.isPrefixOf (c :: t) || listContainsSub sub t

/-- JS `String.prototype.includes`. -/
def jsIncludes (hay sub : String) : Bool := listContainsSub sub.data hay.data

/-- `games.filter(g => g.name.toLowerCase().includes(filterText.toLowerCase()))`. -/
def filteredGames (G : List Game) (s : UIState) : List Game :=
  G.filter (fun g => jsIncludes (jsToLower g.name) (jsToLower s.filterText))

/-- `expansions.filter(e => e.game_id === selectedGameId)` (`null` matches nothing). -/
def gameExpansions (E : List Expansion) (s : UIState) : List Expansion :=
  E.filter (fun e => s.selectedGameId == some e.game_id)

/-- The filtered expansion list of the selected game. -/
def filteredExps (E : List Expansion) (s : UIState) : List Expansion :=
  (gameExpansions E s).filter (fun e => jsIncludes (jsToLower e.name) (jsToLower s.filterText))

/-- JS array indexing with a possibly negative index: `arr[i]` is `undefined`
out of range. -/
def getAtInt (l : List α) (i : Int) : Option α :=
  if i < 0 then none else l[i.toNat]?

/-- The cursor/scroll clamping performed by `renderGameSelect` /
`renderExpansionSelect` (lines 149–151 and 190–192); when the filtered list is
empty the clamp block is skipped entirely. -/
def applyClamp (len : Nat) (H : Int) (s : UIState) : UIState :=
  if len = 0 then s
  else
    let c := if (len : Int) ≤ s.cursor then max 0 ((len : Int) - 1) else s.cursor
    let so := if c < s.scrollOffset then c else s.scrollOffset
    let so2 := if so + H ≤ c then c - H + 1 else so
    { s with cursor := c, scrollOffset := so2 }

/-- The state effect of `render()`: repaint, clamping cursor/scroll against the
active screen's filtered list; `render()` does nothing on the results screen. -/
def render (G : List Game) (E : List Expansion) (H : Int) (s : UIState) : UIState :=
  match s.screen with
  | .gameSelect => applyClamp (filteredGames G s).length H s
  | .expansionSelect => applyClamp (filteredExps E s).length H s
  | .results => s

/-- Outcome of one `handleInput` call: `exit` models
`showCursor(); process.exit(0)`; `cont s ranAgg` is the successor state,
with `ranAgg` true exactly when `renderResults()` (the aggregation engine) ran. -/
inductive StepResult
  | exit
  | cont (s : UIState) (ranAgg : Bool)
deriving DecidableEq

/-- `Set.delete` / `Set.add` on the marked set (insertion-ordered). -/
def toggleMark (m : List Nat) (x : Nat) : List Nat :=
  if x ∈ m then m.erase x else m ++ [x]

/-- `key.length === 1 && key >= ' '`. -/
def isPrintableKey (k : String) : Bool :=
  match k.data with
  | [c] => decide (32 ≤ c.toNat)
  | _ => false

/-- The results-screen block of `handleInput` (lines 316–324): `q` exits, any
other key goes back to expansion-select (without touching cursor or scroll). -/
def stepResults (G : List Game) (E : List Expansion) (H : Int) (s : UIState) (k : String) :
    StepResult :=
  if k = "q" then .exit
  else .cont (render G E H { s with screen := .expansionSelect }) false

/-- The filter-mode block of `handleInput` (lines 327–348): Escape/Enter leave
filter mode, Backspace/DEL delete one character, printable characters append;
anything else is ignored without repaint. -/
def stepFilter (G : List Game) (E : List Expansion) (H : Int) (s : UIState) (k : String) :
    StepResult :=
  if k = "\x1b" ∨ k = "\r" then
    .cont (render G E H { s with filterMode := false }) false
  else if k = "\x7f" ∨ k = "\x08" then
    .cont (render G E H
      { s with filterText := jsDropLast s.filterText, cursor := 0, scrollOffset := 0 }) false
  else if isPrintableKey k then
    .cont (render G E H
      { s with filterText := s.filterText ++ k, cursor := 0, scrollOffset := 0 }) false
  else .cont s false

/-- The normal-mode block of `handleInput` (lines 351–415). -/
def stepNormal (G : List Game) (E : List Expansion) (H : Int) (s : UIState) (k : String) :
    StepResult :=
  if k = "q" then .exit
  else if k = "/" then
    .cont (render G E H { s with filterMode := true, filterText := "" }) false
  else if k = "\x1b[A" ∨ k = "k" then
    .cont (render G E H { s with cursor := max 0 (s.cursor - 1) }) false
  else if k = "\x1b[B" ∨ k = "j" then
    let maxIdx : Int :=
      (if s.screen = .gameSelect then ((filteredGames G s).length : Int)
       else ((filteredExps E s).length : Int)) - 1
    .cont (render G E H { s with cursor := min maxIdx (s.cursor + 1) }) false
  else if k = "\x1b" ∧ s.screen = .expansionSelect then
    .cont (render G E H
      { s with screen := .gameSelect, cursor := 0, scrollOffset := 0,
               filterText := "", marked := [] }) false
  else if k = " " ∧ s.screen = .expansionSelect then
    match getAtInt (filteredExps E s) s.cursor with
    | some e => .cont (render G E H { s with marked := toggleMark s.marked e.id }) false
    | none => .cont (render G E H s) false
  else if k = "\r" then
    if s.screen = .gameSelect then
      match getAtInt (filteredGames G s) s.cursor with
      | some g =>
        .cont (render G E H
          { s with selectedGameId := some g.id, screen := .expansionSelect,
                   cursor := 0, scrollOffset := 0, filterText := "" }) false
      | none => .cont s false
    else if s.screen = .expansionSelect ∧ s.marked ≠ [] then
      .cont { s with screen := .results } true
    else .cont s false
  else .cont s false

/-- The `handleInput(key)` function (lines 311–415): the three early-return
blocks in source order, with the state effect of each `render()` call inlined. -/
def step (G : List Game) (E : List Expansion) (H : Int) (s : UIState) (k : String) :
    StepResult :=
  if s.screen = .results then stepResults G E H s k
  else if s.filterMode then stepFilter G E H s k
  else stepNormal G E H s k

/-- Run a list of decoded keys from a state, stopping on exit. -/
def runFrom (G : List Game) (E : List Expansion) (H : Int) :
    UIState → List String → StepResult
  | s, [] => .cont s false
  | s, k :: ks =>
    match step G E H s k with
    | .exit => .exit
    | .cont s2 _ => runFrom G E H s2 ks

/-- States the program can be in: the initial state, the initial state after the
startup `render()`, and anything produced by handling a key (with an arbitrary
viewport height per event, since the terminal may be resized at any time). -/
inductive Reachable (G : List Game) (E : List Expansion) : UIState → Prop
  | init : Reachable G E initState
  | renderInit (H : Int) : Reachable G E (render G E H initState)
  | next (s : UIState) (k : String) (H : Int) (s2 : UIState) (b : Bool) :
      Reachable G E s → step G E H s k = .cont s2 b → Reachable G E s2

/-! ## Input decoder (`process.stdin.on('data')` handler, lines 428–457) -/

/-- Raw decoder inputs: an input byte, or the 50ms escape timer firing. -/
inductive RawIn
  | byte (c : Char)
  | timeout
deriving DecidableEq

/-- One step of the escape-buffer decoder. The timer callback fires only while
the buffer still holds exactly the lone escape byte. Emitted events are the
strings passed to `handleInput`. -/
def decodeStep (buf : String) : RawIn → String × List String
  | .timeout => if buf = "\x1b" then ("", ["\x1b"]) else (buf, [])
  | .byte c =>
    if buf ≠ "" then
      let b2 := buf.push c
      if b2.length = 3 ∧ "\x1b[".data.isPrefixOf b2.data then ("", [b2])
      else if 3 ≤ b2.length then ("", [])
      else (b2, [])
    else if c = '\x1b' then ("\x1b", [])
    else (buf, [String.singleton c])

/-- Run the decoder over a sequence of raw inputs, collecting emitted events. -/
def decodeRun (buf : String) : List RawIn → String × List String
  | [] => (buf, [])
  | i :: is =>
    let p := decodeStep buf i
    let q := decodeRun p.1 is
    (q.1, p.2 ++ q.2)

/-- Logical key events, classified by the dispatch tests of `handleInput`. -/
inductive KeyEvent
  | quit
  | filterTrigger
  | arrowUp
  | arrowDown
  | escape
  | enter
  | backspace
  | space
  | char (c : Char)
  | other (s : String)
deriving DecidableEq

/-- Classification of a raw key string by `handleInput`'s dispatch conditions. -/
def classify (k : String) : KeyEvent :=
  if k = "q" then .quit
  else if k = "/" then .filterTrigger
  else if k = "\x1b[A" ∨ k = "k" then .arrowUp
  else if k = "\x1b[B" ∨ k = "j" then .arrowDown
  else if k = "\x1b" then .escape
  else if k = "\r" then .enter
  else if k = "\x7f" ∨ k = "\x08" then .backspace
  else if k = " " then .space
  else match k.data with
    | [c] => .char c
    | _ => .other k

/-- Lookup in the insertion-ordered breakdown map (`cardBreakdown.get(name)`). -/
def bdLookup : List BEntry → String → Option (Int × Int)
  | [], _ => none
  | e :: rest, n => if e.name = n then some (e.qty, e.cents) else bdLookup rest n

/-! ## Concrete fixtures used by counterexamples and witnesses -/

/-- A one-game reference list. -/
def demoGames : List Game := [⟨1, "Magic"⟩]

/-- Two expansions of that game. -/
def demoExps : List Expansion := [⟨10, 1, "Alpha"⟩, ⟨11, 1, "Beta"⟩]

/-- A line item of expansion "Alpha" whose `quantity` field is missing but
whose price (`seller_price.cents = 500`) is present. -/
def itemNoQty : LineItem := ⟨some "Alpha", some "Card A", none, none, some 500, none, none⟩

/-- One order containing only `itemNoQty`. -/
def ordersC3 : List Order := [⟨some [itemNoQty], none⟩]

/-- The expansion "Alpha" itself. -/
def expAlpha : Expansion := ⟨10, 1, "Alpha"⟩

/-- A well-formed line item of "Alpha": quantity 2, price 500 minor units. -/
def itemA : LineItem := ⟨some "Alpha", some "Card A", none, some 2, some 500, none, none⟩

/-- A second well-formed line item of "Alpha" with a different name. -/
def itemB : LineItem := ⟨some "ALPHA", some "Card B", none, some 1, some 700, none, none⟩

/-- Orders for the aggregation witness: two records, three line items. -/
def ordersW : List Order := [⟨some [itemA, itemB], none⟩, ⟨none, some [itemA]⟩]

/-- A matching line item with all price fields missing and quantity 3. -/
def itemNoPrice : LineItem := ⟨some "Alpha", some "Card B", none, some 3, none, none, none⟩

/-- An empty aggregation accumulator. -/
def accZero : ExpAgg := ⟨0, 0, []⟩

/-- A reachable state sitting in expansion-select filter mode with nothing
marked (reached from `initState` by Enter then `/`). -/
def filterModeState : UIState :=
  { screen := .expansionSelect, selectedGameId := some 1, cursor := 0, scrollOffset := 0
    filterMode := true, filterText := "", marked := [] }

/-- The state after pressing Enter on "Magic" from `initState`. -/
def enterState : UIState :=
  { screen := .expansionSelect, selectedGameId := some 1, cursor := 0, scrollOffset := 0
    filterMode := false, filterText := "", marked := [] }

/-- `enterState` after marking expansion 10 ("Alpha") with Space. -/
def markedState : UIState :=
  { screen := .expansionSelect, selectedGameId := some 1, cursor := 0, scrollOffset := 0
    filterMode := false, filterText := "", marked := [10] }

/-- A state on the results screen with a non-zero cursor (reached from
`initState` by Enter, ArrowDown, Space, Enter). -/
def resultsState : UIState :=
  { screen := .results, selectedGameId := some 1, cursor := 1, scrollOffset := 0
    filterMode := false, filterText := "", marked := [11] }

/-- The state `resultsState` transitions to on a non-Quit key: back on
expansion-select with cursor still 1. -/
def backState : UIState :=
  { screen := .expansionSelect, selectedGameId := some 1, cursor := 1, scrollOffset := 0
    filterMode := false, filterText := "", marked := [11] }

/-- The state reached from `initState` by '/', 'z', Enter, 'j': the game list
filtered to empty and the cursor driven to −1 by ArrowDown. -/
def negCursorGameState : UIState :=
  { screen := .gameSelect, selectedGameId := none, cursor := -1, scrollOffset := 0
    filterMode := false, filterText := "z", marked := [] }

/-- The state reached from `initState` by Enter, '/', 'z', Enter, 'j': the
expansion list filtered to empty and the cursor driven to −1, as left by the
repaint that follows the ArrowDown. -/
def negCursorExpState : UIState :=
  { screen := .expansionSelect, selectedGameId := some 1, cursor := -1, scrollOffset := 0
    filterMode := false, filterText := "z", marked := [] }

/-- The state reached from `initState` by '/' then 'q': still running, with the
'q' appended to the filter text. -/
def quitTypedState : UIState :=
  { screen := .gameSelect, selectedGameId := none, cursor := 0, scrollOffset := 0
    filterMode := true, filterText := "q", marked := [] }

/-! ## Renderer field-preservation lemmas -/

@[simp] theorem applyClamp_marked (len : Nat) (H : Int) (s : UIState) :
    (applyClamp len H s).marked = s.marked := by
  unfold applyClamp; split <;> rfl

@[simp] theorem applyClamp_screen (len : Nat) (H : Int) (s : UIState) :
    (applyClamp len H s).screen = s.screen := by
  unfold applyClamp; split <;> rfl

@[simp] theorem applyClamp_selectedGameId (len : Nat) (H : Int) (s : UIState) :
    (applyClamp len H s).selectedGameId = s.selectedGameId := by
  unfold applyClamp; split <;> rfl

@[simp] theorem applyClamp_filterMode (len : Nat) (H : Int) (s : UIState) :
    (applyClamp len H s).filterMode = s.filterMode := by
  unfold applyClamp; split <;> rfl

@[simp] theorem applyClamp_filterText (len : Nat) (H : Int) (s : UIState) :
    (applyClamp len H s).filterText = s.filterText := by
  unfold applyClamp; split <;> rfl

@[simp] theorem render_marked (G : List Game) (E : List Expansion) (H : Int) (s : UIState) :
    (render G E H s).marked = s.marked := by
  unfold render; split <;> simp

@[simp] theorem render_screen (G : List Game) (E : List Expansion) (H : Int) (s : UIState) :
    (render G E H s).screen = s.screen := by
  unfold render; split <;> simp_all

@[simp] theorem render_selectedGameId (G : List Game) (E : List Expansion) (H : Int)
    (s : UIState) : (render G E H s).selectedGameId = s.selectedGameId := by
  unfold render; split <;> simp

@[simp] theorem render_filterMode (G : List Game) (E : List Expansion) (H : Int)
    (s : UIState) : (render G E H s).filterMode = s.filterMode := by
  unfold render; split <;> simp

@[simp] theorem render_filterText (G : List Game) (E : List Expansion) (H : Int)
    (s : UIState) : (render G E H s).filterText = s.filterText := by
  unfold render; split <;> simp

/-! ## The marked-set invariant -/

/-- The marked set holds only ids of expansions of the currently selected game,
and is empty while on the game-select screen. -/
def markedOK (E : List Expansion) (s : UIState) : Prop :=
  (∀ x ∈ s.marked, ∃ e ∈ E, e.id = x ∧ s.selectedGameId = some e.game_id) ∧
  (s.screen = .gameSelect → s.marked = [])

theorem markedOK_render (G : List Game) (E : List Expansion) (H : Int) (s : UIState)
    (h : markedOK E s) : markedOK E (render G E H s) := by
  obtain ⟨h1, h2⟩ := h
  refine ⟨?_, ?_⟩ <;> simp_all

theorem markedOK_toggle (E : List Expansion) (s : UIState) (e : Expansion)
    (he : e ∈ filteredExps E s) (h : markedOK E s) :
    ∀ x ∈ toggleMark s.marked e.id, ∃ e2 ∈ E, e2.id = x ∧ s.selectedGameId = some e2.game_id := by
  intro x hx
  unfold toggleMark at hx
  split at hx
  · exact h.1 x (List.mem_of_mem_erase hx)
  · rcases List.mem_append.mp hx with hx | hx
    · exact h.1 x hx
    · have hx2 : x = e.id := by simpa using hx
      subst hx2
      have he2 : e ∈ gameExpansions E s := List.mem_of_mem_filter he
      have he3 := List.mem_filter.mp he2
      refine ⟨e, he3.1, rfl, ?_⟩
      have := he3.2
      simpa [beq_iff_eq] using this

theorem markedOK_stepResults (G : List Game) (E : List Expansion) (H : Int) (s : UIState)
    (k : String) (s2 : UIState) (b : Bool) (hs : markedOK E s)
    (h : stepResults G E H s k = .cont s2 b) : markedOK E s2 := by
  unfold stepResults at h
  split at h
  · cases h
  · cases h
    refine markedOK_render _ _ _ _ ⟨hs.1, ?_⟩
    intro hg; cases hg

theorem markedOK_stepFilter (G : List Game) (E : List Expansion) (H : Int) (s : UIState)
    (k : String) (s2 : UIState) (b : Bool) (hs : markedOK E s)
    (h : stepFilter G E H s k = .cont s2 b) : markedOK E s2 := by
  unfold stepFilter at h
  split at h
  · cases h; exact markedOK_render _ _ _ _ ⟨hs.1, fun hg => hs.2 hg⟩
  · split at h
    · cases h; exact markedOK_render _ _ _ _ ⟨hs.1, fun hg => hs.2 hg⟩
    · split at h
      · cases h; exact markedOK_render _ _ _ _ ⟨hs.1, fun hg => hs.2 hg⟩
      · cases h; exact hs

theorem markedOK_stepNormal (G : List Game) (E : List Expansion) (H : Int) (s : UIState)
    (k : String) (s2 : UIState) (b : Bool) (hs : markedOK E s)
    (h : stepNormal G E H s k = .cont s2 b) : markedOK E s2 := by
  unfold stepNormal at h
  split at h
  · cases h
  · split at h
    · -- filter trigger
      cases h; exact markedOK_render _ _ _ _ ⟨hs.1, fun hg => hs.2 hg⟩
    · split at h
      · -- arrow up
        cases h; exact markedOK_render _ _ _ _ ⟨hs.1, fun hg => hs.2 hg⟩
      · split at h
        · -- arrow down
          cases h; exact markedOK_render _ _ _ _ ⟨hs.1, fun hg => hs.2 hg⟩
        · split at h
          · -- escape from expansion select
            cases h
            refine markedOK_render _ _ _ _ ⟨?_, ?_⟩
            · intro x hx; cases hx
            · intro hg; rfl
          · split at h
            · -- space: toggle
              rename_i hcond
              split at h
              · rename_i e hge
                cases h
                refine markedOK_render _ _ _ _ ⟨?_, ?_⟩
                · have he : e ∈ filteredExps E s := by
                    unfold getAtInt at hge
                    split at hge
                    · cases hge
                    · exact List.getElem?_mem hge
                  exact markedOK_toggle E s e he hs
                · intro hg
                  rw [hcond.2] at hg; cases hg
              · cases h; exact markedOK_render _ _ _ _ hs
            · split at h
              · -- enter
                split at h
                · -- on game select
                  rename_i hgs
                  split at h
                  · rename_i g hgg
                    cases h
                    have hempty : s.marked = [] := hs.2 hgs
                    refine markedOK_render _ _ _ _ ⟨?_, ?_⟩
                    · intro x hx; rw [hempty] at hx; cases hx
                    · intro hg; exact hempty
                  · cases h; exact hs
                · split at h
                  · -- to results
                    cases h
                    exact ⟨hs.1, fun hg => by cases hg⟩
                  · cases h; exact hs
              · cases h; exact hs

theorem markedOK_step (G : List Game) (E : List Expansion) (H : Int) (s : UIState)
    (k : String) (s2 : UIState) (b : Bool) (hs : markedOK E s)
    (h : step G E H s k = .cont s2 b) : markedOK E s2 := by
  unfold step at h
  split at h
  · exact markedOK_stepResults G E H s k s2 b hs h
  · split at h
    · exact markedOK_stepFilter G E H s k s2 b hs h
    · exact markedOK_stepNormal G E H s k s2 b hs h

theorem reachable_markedOK (G : List Game) (E : List Expansion) (s : UIState)
    (hr : Reachable G E s) : markedOK E s := by
  induction hr with
  | init => exact ⟨fun x hx => absurd hx (List.not_mem_nil x), fun _ => rfl⟩
  | renderInit H =>
    exact markedOK_render _ _ _ _ ⟨fun x hx => absurd hx (List.not_mem_nil x), fun _ => rfl⟩
  | next s k H s2 b _ hstep ih => exact markedOK_step G E H s k s2 b ih hstep

/-- Clamping a state whose cursor and scroll offset are both 0 changes nothing
when the viewport holds at least one row. -/
theorem applyClamp_zero (len : Nat) (H : Int) (s : UIState) (hc : s.cursor = 0)
    (hso : s.scrollOffset = 0) (hH : 1 ≤ H) : applyClamp len H s = s := by
  obtain ⟨scr, sel, cur, so, fm, ft, mk⟩ := s
  simp only at hc hso
  subst hc; subst hso
  unfold applyClamp
  split
  · rfl
  · rename_i hlen
    have hlen2 : 1 ≤ (len : Int) := by omega
    simp only
    rw [if_neg (by omega)]
    rw [if_neg (by omega)]
    rw [if_neg (by omega)]

/-! ## Claim theorems -/

/-- C6 (confirmed): in every reachable UI state, every id in the marked set is
the id of an expansion whose `game_id` equals the currently selected game's id,
and the marked set is empty on the game-select screen (hence outside a visit to
expansion-select, results being part of such a visit). -/
theorem marked_subset_selected_game (G : List Game) (E : List Expansion) (s : UIState)
    (hr : Reachable G E s) :
    (∀ x ∈ s.marked, ∃ e ∈ E, e.id = x ∧ s.selectedGameId = some e.game_id) ∧
    (s.screen = .gameSelect → s.marked = []) :=
  reachable_markedOK G E s hr

/-- Witness for C6 at a concrete reachable state with a non-empty marked set
(`initState` after Enter then Space). -/
theorem marked_subset_selected_game_witness :
    (∀ x ∈ markedState.marked,
      ∃ e ∈ demoExps, e.id = x ∧ markedState.selectedGameId = some e.game_id) ∧
    (markedState.screen = .gameSelect → markedState.marked = []) :=
  marked_subset_selected_game demoGames demoExps markedState
    (Reachable.next enterState " " 5 markedState false
      (Reachable.next initState "\r" 5 enterState false Reachable.init (by decide))
      (by decide))

/-- C5 (confirmed): from any reachable game-select state in normal mode, Enter
on a highlighted filtered game moves to expansion-select with cursor 0, scroll
offset 0, empty filter text and an empty marked set (for a usable viewport,
`1 ≤ H`). The marked set is empty because it is an invariant of the game-select
screen; the transition itself does not clear it. -/
theorem enter_on_game_resets (G : List Game) (E : List Expansion) (H : Int) (s : UIState)
    (g : Game) (hr : Reachable G E s) (hscr : s.screen = .gameSelect)
    (hfm : s.filterMode = false) (hg : getAtInt (filteredGames G s) s.cursor = some g)
    (hH : 1 ≤ H) :
    step G E H s "\r" = .cont
      { screen := .expansionSelect, selectedGameId := some g.id, cursor := 0,
        scrollOffset := 0, filterMode := false, filterText := "", marked := [] } false := by
  have hmk : s.marked = [] := (reachable_markedOK G E s hr).2 hscr
  unfold step
  rw [if_neg (by simp [hscr]), if_neg (by simp [hfm])]
  unfold stepNormal
  rw [if_neg (by decide), if_neg (by decide), if_neg (by decide), if_neg (by decide)]
  rw [if_neg (fun hco => absurd hco.1 (by decide))]
  rw [if_neg (fun hco => absurd hco.1 (by decide))]
  rw [if_pos rfl, if_pos hscr]
  have hrend :
      render G E H
        { s with selectedGameId := some g.id, screen := .expansionSelect,
                 cursor := 0, scrollOffset := 0, filterText := "" }
      = { s with selectedGameId := some g.id, screen := .expansionSelect,
                 cursor := 0, scrollOffset := 0, filterText := "" } := by
    simp only [render]
    exact applyClamp_zero _ H _ rfl rfl hH
  simp only [hg, hrend]
  obtain ⟨scr, sel, cur, so, fm, ft, mk⟩ := s
  simp only at hfm hmk
  subst hfm; subst hmk
  rfl

/-- Witness for C5: Enter on "Magic" from the initial state. -/
theorem enter_on_game_resets_witness :
    step demoGames demoExps 5 initState "\r" = .cont
      { screen := .expansionSelect, selectedGameId := some 1, cursor := 0,
        scrollOffset := 0, filterMode := false, filterText := "", marked := [] } false :=
  enter_on_game_resets demoGames demoExps 5 initState ⟨1, "Magic"⟩ Reachable.init
    rfl rfl (by decide) (by decide)

/-- C2 counterexample: from a reachable results-screen state with cursor 1
(Enter, ArrowDown, Space, Enter from the initial state), a non-Quit key ('x')
returns to expansion-select with cursor still 1 — it is not reset to 0. -/
theorem results_back_cursor_not_reset :
    runFrom demoGames demoExps 5 initState ["\r", "j", " ", "\r", "x"]
      = .cont backState false ∧
    backState.screen = Screen.expansionSelect ∧ backState.marked = [11] ∧
    backState.cursor = 1 ∧ ¬backState.cursor = 0 := by decide

/-- C2 (amended): on the results screen any key other than 'q' returns to
expansion-select with the marked set, filter text, filter mode and selected
game unchanged; cursor and scroll offset are retained (subject only to the
usual render clamp), not reset to 0. -/
theorem results_any_key_back (G : List Game) (E : List Expansion) (H : Int) (s : UIState)
    (k : String) (hs : s.screen = .results) (hk : k ≠ "q") :
    step G E H s k = .cont (render G E H { s with screen := .expansionSelect }) false ∧
    (render G E H { s with screen := .expansionSelect }).marked = s.marked ∧
    (render G E H { s with screen := .expansionSelect }).screen = .expansionSelect ∧
    (render G E H { s with screen := .expansionSelect }).filterText = s.filterText ∧
    (render G E H { s with screen := .expansionSelect }).filterMode = s.filterMode ∧
    (render G E H { s with screen := .expansionSelect }).selectedGameId = s.selectedGameId := by
  refine ⟨?_, by simp, by simp, by simp, by simp, by simp⟩
  unfold step stepResults
  rw [if_pos hs, if_neg hk]

/-- Witness for the amended C2 at the concrete results state with cursor 1. -/
theorem results_any_key_back_witness :
    step demoGames demoExps 5 resultsState "x"
      = .cont (render demoGames demoExps 5 { resultsState with screen := .expansionSelect })
          false ∧
    (render demoGames demoExps 5 { resultsState with screen := .expansionSelect }).marked
      = resultsState.marked ∧
    (render demoGames demoExps 5 { resultsState with screen := .expansionSelect }).screen
      = .expansionSelect ∧
    (render demoGames demoExps 5 { resultsState with screen := .expansionSelect }).filterText
      = resultsState.filterText ∧
    (render demoGames demoExps 5 { resultsState with screen := .expansionSelect }).filterMode
      = resultsState.filterMode ∧
    (render demoGames demoExps 5 { resultsState with screen := .expansionSelect }).selectedGameId
      = resultsState.selectedGameId :=
  results_any_key_back demoGames demoExps 5 resultsState "x" rfl (by decide)

/-- C9 counterexample: in filter sub-mode, 'q' does not terminate the program;
it is appended to the filter text (run: '/', then 'q', from the initial state). -/
theorem quit_ignored_in_filter_mode :
    runFrom demoGames demoExps 5 initState ["/", "q"] = .cont quitTypedState false ∧
    ¬runFrom demoGames demoExps 5 initState ["/", "q"] = .exit ∧
    quitTypedState.filterMode = true ∧ quitTypedState.filterText = "q" := by decide

/-- C9 (amended): 'q' terminates the program on every screen whenever the
filter sub-mode is inactive (and always on the results screen); in filter mode
'q' is instead appended to the filter text. -/
theorem quit_exits_outside_filter_mode (G : List Game) (E : List Expansion) (H : Int)
    (s : UIState) (h : s.filterMode = false ∨ s.screen = .results) :
    step G E H s "q" = .exit := by
  unfold step
  by_cases hr : s.screen = .results
  · rw [if_pos hr]; unfold stepResults; rw [if_pos rfl]
  · rw [if_neg hr]
    rcases h with hf | hr2
    · rw [if_neg (by simp [hf])]; unfold stepNormal; rw [if_pos rfl]
    · exact absurd hr2 hr

/-- Witness for the amended C9: 'q' at the initial state exits. -/
theorem quit_exits_outside_filter_mode_witness :
    step demoGames demoExps 5 initState "q" = .exit :=
  quit_exits_outside_filter_mode demoGames demoExps 5 initState (Or.inl rfl)

/-- C10 counterexample: with the marked set empty but filter mode active in
expansion-select, Enter does change the state — it leaves filter mode. -/
theorem enter_in_filter_mode_changes_state :
    step demoGames demoExps 5 filterModeState "\r"
      = .cont { filterModeState with filterMode := false } false ∧
    ¬({ filterModeState with filterMode := false } = filterModeState) := by decide

/-- C10 (amended): an Enter event in expansion-select in normal mode
(filter mode off) with an empty marked set leaves the state exactly unchanged,
and the aggregation engine does not run. -/
theorem enter_with_empty_marked_is_noop (G : List Game) (E : List Expansion) (H : Int)
    (s : UIState) (hscr : s.screen = .expansionSelect) (hfm : s.filterMode = false)
    (hm : s.marked = []) :
    step G E H s "\r" = .cont s false := by
  unfold step
  rw [if_neg (by simp [hscr]), if_neg (by simp [hfm])]
  unfold stepNormal
  rw [if_neg (by decide), if_neg (by decide), if_neg (by decide), if_neg (by decide)]
  rw [if_neg (fun hco => absurd hco.1 (by decide))]
  rw [if_neg (fun hco => absurd hco.1 (by decide))]
  rw [if_pos rfl, if_neg (by simp [hscr])]
  rw [if_neg (fun hco => hco.2 hm)]

/-- Witness for the amended C10 at the concrete post-Enter state. -/
theorem enter_with_empty_marked_is_noop_witness :
    step demoGames demoExps 5 enterState "\r" = .cont enterState false :=
  enter_with_empty_marked_is_noop demoGames demoExps 5 enterState rfl rfl rfl

/-- C4 (code bug): filtering the game list down to empty ('/' 'z' Enter) and
pressing 'j' sets the cursor to −1: `Math.min(filteredList.length − 1,
cursor + 1)` is −1 on an empty list, contradicting the claimed invariant that
the cursor can never become negative. -/
theorem arrowDown_empty_list_negative_cursor :
    runFrom demoGames demoExps 5 initState ["/", "z", "\r", "j"]
      = .cont negCursorGameState false ∧
    (filteredGames demoGames negCursorGameState).length = 0 ∧
    negCursorGameState.cursor = -1 ∧ negCursorGameState.cursor < 0 := by decide

/-- C7 (code bug): the same slip violates the post-render invariant: after
filtering the expansion list to empty and pressing 'j' the state immediately
after the repaint has cursor −1 and scroll offset 0, not cursor = scroll = 0 as
claimed for an empty list (the render clamp is skipped entirely when the
filtered list is empty). -/
theorem render_invariant_broken_on_empty_list :
    runFrom demoGames demoExps 5 initState ["\r", "/", "z", "\r", "j"]
      = .cont negCursorExpState false ∧
    (filteredExps demoExps negCursorExpState).length = 0 ∧
    negCursorExpState.cursor = -1 ∧ negCursorExpState.scrollOffset = 0 ∧
    ¬(negCursorExpState.cursor = 0 ∧ negCursorExpState.scrollOffset = 0) := by decide

/-- C8 (confirmed): the decoder, fed ESC '[' 'A' with both trailing bytes
arriving before the timer fires, emits exactly one ArrowUp event and nothing
else (in particular no Escape and no stray characters, even when the timer
fires later); fed a lone ESC followed by the timer firing, it emits exactly one
Escape event. -/
theorem escape_disambiguation :
    (decodeRun "" [.byte '\x1b', .byte '[', .byte 'A', .timeout]).2.map classify
      = [KeyEvent.arrowUp] ∧
    (decodeRun "" [.byte '\x1b', .timeout]).2.map classify = [KeyEvent.escape] := by
  decide

/-- C3 counterexample: a line item of the marked expansion whose `quantity`
field is missing (price 500 present) is not skipped: it contributes 1 to
totalQty and 500 to totalCents, not zero to both. -/
theorem missing_quantity_not_skipped :
    (computeRow demoExps ordersC3 10).totalQty = 1 ∧
    (computeRow demoExps ordersC3 10).totalCents = 500 ∧
    ¬((computeRow demoExps ordersC3 10).totalQty = 0 ∧
      (computeRow demoExps ordersC3 10).totalCents = 0) := by decide

/-- C3 (amended): a matching line item with no usable price field contributes
zero to totalRevenue but is not skipped — its quantity (default 1 when the
quantity field is missing) is still added to totalQty; and the scan always
continues over the remaining records (the fold over appended orders proceeds
from the accumulated state). -/
theorem malformed_item_contribution (expName : String) (acc : ExpAgg) (it : LineItem)
    (orders1 orders2 : List Order) (hmatch : matchesExp expName it = true)
    (hsp : it.sellerPriceCents = none) (hpc : it.price_cents = none)
    (hp : it.price = none) :
    (scanItem expName acc it).totalCents = acc.totalCents ∧
    (scanItem expName acc it).totalQty = acc.totalQty + it.quantity.getD 1 ∧
    aggregateExpansion expName (orders1 ++ orders2)
      = orders2.foldl (fun acc2 o => (orderItems o).foldl (scanItem expName) acc2)
          (aggregateExpansion expName orders1) := by
  refine ⟨?_, ?_, ?_⟩
  · simp [scanItem, hmatch, scanStep, resolvePriceCents, hsp, hpc, hp]
  · simp [scanItem, hmatch, scanStep]
  · unfold aggregateExpansion
    rw [List.foldl_append]

/-- Witness for the amended C3: a matching item with no price fields and
quantity 3 leaves revenue unchanged and adds 3 to the quantity. -/
theorem malformed_item_contribution_witness :
    (scanItem "alpha" accZero itemNoPrice).totalCents = accZero.totalCents ∧
    (scanItem "alpha" accZero itemNoPrice).totalQty
      = accZero.totalQty + itemNoPrice.quantity.getD 1 ∧
    aggregateExpansion "alpha" ([] ++ ordersC3)
      = ordersC3.foldl (fun acc2 o => (orderItems o).foldl (scanItem "alpha") acc2)
          (aggregateExpansion "alpha" []) :=
  malformed_item_contribution "alpha" accZero itemNoPrice [] ordersC3
    (by decide) rfl rfl rfl

/-! ## Aggregation-engine lemmas for C1 -/

/-- The double loop over orders and their items is the fold over the flattened
item list. -/
theorem foldl_orders_eq_flat (expName : String) (orders : List Order) (acc : ExpAgg) :
    orders.foldl (fun a o => (orderItems o).foldl (scanItem expName) a) acc
      = (orders.flatMap orderItems).foldl (scanItem expName) acc := by
  induction orders generalizing acc with
  | nil => rfl
  | cons o rest ih => simp only [List.foldl_cons, List.flatMap_cons, List.foldl_append, ih]

/-- The guarded scan over all items is the unguarded scan over the matching
items. -/
theorem foldl_scanItem_eq_filter (expName : String) (items : List LineItem) (acc : ExpAgg) :
    items.foldl (scanItem expName) acc
      = (items.filter (matchesExp expName)).foldl scanStep acc := by
  induction items generalizing acc with
  | nil => rfl
  | cons it rest ih =>
    by_cases h : matchesExp expName it
    · simp only [List.foldl_cons, List.filter_cons, h, if_pos, scanItem, ih, ite_true]
    · simp only [List.foldl_cons, List.filter_cons, h, scanItem, ih, ite_false,
        Bool.false_eq_true]

/-- The aggregation for one expansion name is the plain fold of `scanStep` over
the matching items. -/
theorem aggregateExpansion_eq (expName : String) (orders : List Order) :
    aggregateExpansion expName orders
      = (matchingItems expName orders).foldl scanStep ⟨0, 0, []⟩ := by
  unfold aggregateExpansion matchingItems
  rw [foldl_orders_eq_flat, foldl_scanItem_eq_filter]

/-- Running totals: the quantity accumulator sums `quantity ?? 1` over the
scanned items. -/
theorem foldl_scanStep_totalQty (items : List LineItem) (acc : ExpAgg) :
    (items.foldl scanStep acc).totalQty
      = acc.totalQty + (items.map (fun it => it.quantity.getD 1)).sum := by
  induction items generalizing acc with
  | nil => simp
  | cons it rest ih =>
    rw [List.foldl_cons, ih]
    simp only [scanStep, List.map_cons, List.sum_cons]
    ring

/-- Running totals: the revenue accumulator sums `priceCents * (quantity ?? 1)`
over the scanned items. -/
theorem foldl_scanStep_totalCents (items : List LineItem) (acc : ExpAgg) :
    (items.foldl scanStep acc).totalCents
      = acc.totalCents
        + (items.map (fun it => resolvePriceCents it * it.quantity.getD 1)).sum := by
  induction items generalizing acc with
  | nil => simp
  | cons it rest ih =>
    rw [List.foldl_cons, ih]
    simp only [scanStep, List.map_cons, List.sum_cons]
    ring

/-- Inserting into the breakdown map appends the name exactly when it is new. -/
theorem bdInsert_names (bd : List BEntry) (n : String) (q c : Int) :
    (bdInsert bd n q c).map (fun e => e.name)
      = if n ∈ bd.map (fun e => e.name) then bd.map (fun e => e.name)
        else bd.map (fun e => e.name) ++ [n] := by
  induction bd with
  | nil => simp [bdInsert]
  | cons e rest ih =>
    by_cases h : e.name = n
    · simp [bdInsert, h]
    · have hne : ¬n = e.name := fun hh => h hh.symm
      by_cases h2 : n ∈ rest.map (fun e2 => e2.name)
      · simp [bdInsert, h, ih, h2, hne]
      · simp [bdInsert, h, ih, h2, hne]

/-- The breakdown keys after a scan are the previously present keys extended,
in first-encounter order, by the scanned display names. -/
theorem foldl_scanStep_names (items : List LineItem) (acc : ExpAgg) :
    ((items.foldl scanStep acc).breakdown).map (fun e => e.name)
      = items.foldl
          (fun ns it => if displayName it ∈ ns then ns else ns ++ [displayName it])
          (acc.breakdown.map (fun e => e.name)) := by
  induction items generalizing acc with
  | nil => rfl
  | cons it rest ih =>
    rw [List.foldl_cons, List.foldl_cons, ih]
    congr 1
    simp only [scanStep]
    exact bdInsert_names acc.breakdown (displayName it) _ _

/-- The breakdown keys of a full scan from the empty accumulator are exactly
the first occurrences of the display names, in first-encountered order. -/
theorem scan_names_firstOccs (items : List LineItem) :
    ((items.foldl scanStep ⟨0, 0, []⟩).breakdown).map (fun e => e.name)
      = firstOccs (items.map displayName) := by
  rw [foldl_scanStep_names]
  unfold firstOccs
  rw [List.foldl_map]
  rfl

/-- `firstOccs` never contains duplicates. -/
theorem firstOccs_nodup (l : List String) : (firstOccs l).Nodup := by
  suffices h : ∀ acc : List String, acc.Nodup →
      (l.foldl (fun ns n => if n ∈ ns then ns else ns ++ [n]) acc).Nodup by
    exact h [] List.nodup_nil
  induction l with
  | nil => intro acc hacc; exact hacc
  | cons n rest ih =>
    intro acc hacc
    rw [List.foldl_cons]
    by_cases h : n ∈ acc
    · rw [if_pos h]; exact ih acc hacc
    · rw [if_neg h]
      refine ih _ ?_
      simp [List.nodup_append, hacc, h]

/-- Looking up `bdInsert` returns the bumped pair at the inserted key and is
transparent elsewhere. -/
theorem bdLookup_bdInsert (bd : List BEntry) (n m : String) (q c : Int) :
    bdLookup (bdInsert bd n q c) m =
      if m = n then
        match bdLookup bd n with
        | some p => some (p.1 + q, p.2 + c)
        | none => some (q, c)
      else bdLookup bd m := by
  induction bd with
  | nil =>
    by_cases h : m = n
    · simp [bdInsert, bdLookup, h]
    · have hnm : ¬n = m := fun hh => h hh.symm
      simp [bdInsert, bdLookup, h, hnm]
  | cons e rest ih =>
    by_cases he : e.name = n
    · by_cases hm : m = n
      · subst hm; simp [bdInsert, bdLookup, he]
      · have hem : ¬e.name = m := by rw [he]; exact fun hh => hm hh.symm
        have hnm : ¬n = m := fun hh => hm hh.symm
        simp [bdInsert, bdLookup, he, hem, hm, hnm]
    · by_cases hm : m = e.name
      · have hmn : ¬m = n := by rw [hm]; exact fun hh => he hh
        simp [bdInsert, bdLookup, he, hm, hmn]
      · have hem : ¬e.name = m := fun hh => hm hh.symm
        simp only [bdInsert, if_neg he, bdLookup, if_neg hem]
        exact ih

/-- Per-name running sums: looking up a name after a scan yields the previous
pair bumped by the quantity and revenue of the scanned items with that display
name (or exactly those sums when the name was not yet present). -/
theorem foldl_scanStep_bdLookup (items : List LineItem) (acc : ExpAgg) (n : String) :
    bdLookup ((items.foldl scanStep acc).breakdown) n =
      match bdLookup acc.breakdown n with
      | some p => some (p.1 + itemsQtySum items n, p.2 + itemsCentsSum items n)
      | none =>
        if items.filter (fun it => displayName it = n) = [] then none
        else some (itemsQtySum items n, itemsCentsSum items n) := by
  induction items generalizing acc with
  | nil =>
    simp only [List.foldl_nil, itemsQtySum, itemsCentsSum, List.filter_nil, List.map_nil,
      List.sum_nil, if_pos rfl]
    cases h : bdLookup acc.breakdown n <;> simp
  | cons it rest ih =>
    rw [List.foldl_cons, ih]
    have hbd : (scanStep acc it).breakdown
        = bdInsert acc.breakdown (displayName it)
            (it.quantity.getD 1) (resolvePriceCents it * it.quantity.getD 1) := rfl
    rw [hbd, bdLookup_bdInsert]
    by_cases h : displayName it = n
    · have hfil : (it :: rest).filter (fun x => displayName x = n)
          = it :: rest.filter (fun x => displayName x = n) := by
        simp [List.filter_cons, h]
      have hq : itemsQtySum (it :: rest) n = it.quantity.getD 1 + itemsQtySum rest n := by
        simp [itemsQtySum, hfil]
      have hc : itemsCentsSum (it :: rest) n
          = resolvePriceCents it * it.quantity.getD 1 + itemsCentsSum rest n := by
        simp [itemsCentsSum, hfil]
      rw [h, if_pos rfl, hq, hc, hfil]
      cases hl : bdLookup acc.breakdown n
      · simp only [hl]
        rw [if_neg (List.cons_ne_nil _ _)]
      · rename_i p
        simp only [hl]
        simp [add_assoc]
    · have hfil : (it :: rest).filter (fun x => displayName x = n)
          = rest.filter (fun x => displayName x = n) := by
        simp [List.filter_cons, h]
      have hq : itemsQtySum (it :: rest) n = itemsQtySum rest n := by
        simp [itemsQtySum, hfil]
      have hc : itemsCentsSum (it :: rest) n = itemsCentsSum rest n := by
        simp [itemsCentsSum, hfil]
      rw [if_neg (fun hh => h hh.symm), hq, hc, hfil]

/-- In a breakdown whose keys are distinct, lookup recovers each entry. -/
theorem bdLookup_of_mem (bd : List BEntry) (hnd : (bd.map (fun e => e.name)).Nodup)
    (e : BEntry) (he : e ∈ bd) : bdLookup bd e.name = some (e.qty, e.cents) := by
  induction bd with
  | nil => cases he
  | cons x rest ih =>
    rcases List.mem_cons.mp he with he1 | he2
    · subst he1
      simp [bdLookup]
    · have hx : ¬x.name = e.name := by
        intro hxe
        have : e.name ∈ rest.map (fun e2 => e2.name) :=
          List.mem_map.mpr ⟨e, he2, rfl⟩
        rw [List.map_cons] at hnd
        exact (List.nodup_cons.mp hnd).1 (hxe ▸ this)
      rw [List.map_cons] at hnd
      simp only [bdLookup, if_neg hx]
      exact ih (List.nodup_cons.mp hnd).2 he2

/-- `computeRow` under a successful expansion lookup. -/
theorem computeRow_of_find (E : List Expansion) (orders : List Order) (expId : Nat)
    (exp : Expansion) (hfind : E.find? (fun e => e.id == expId) = some exp) :
    computeRow E orders expId =
      { id := expId
        name := if exp.name = "" then "Unknown" else exp.name
        totalCents := (aggregateExpansion (jsToLower exp.name) orders).totalCents
        totalQty := (aggregateExpansion (jsToLower exp.name) orders).totalQty
        cardBreakdown := (aggregateExpansion (jsToLower exp.name) orders).breakdown } := by
  unfold computeRow
  rw [hfind]

/-- Summing `quantity ?? 1` over items whose quantity is present is summing the
recorded quantities. -/
theorem sum_getD_eq_sum_filterMap (l : List LineItem)
    (h : ∀ it ∈ l, it.quantity ≠ none) :
    (l.map (fun it => it.quantity.getD 1)).sum
      = (l.filterMap (fun it => it.quantity)).sum := by
  induction l with
  | nil => simp
  | cons it rest ih =>
    obtain ⟨q, hq2⟩ := Option.ne_none_iff_exists'.mp (h it (List.mem_cons_self it rest))
    rw [List.map_cons, List.sum_cons, List.filterMap_cons]
    rw [hq2]
    simp only [Option.getD_some, List.sum_cons]
    rw [ih (fun x hx => h x (List.mem_cons_of_mem it hx))]

/-- C1 (confirmed, under the data-model assumption that quantities are
recorded): for a marked expansion resolved in the expansion list, the
per-expansion result of the Aggregation Engine has

* `totalQty` = the sum of the quantities of all line items (across all
  transaction records) whose recorded expansion-name string equals the
  expansion's display name under case-insensitive exact comparison,
* `totalCents` = the sum of price-in-minor-units × quantity over those items,
* a rendered breakdown that is the top 5 item names by revenue: it has
  `min 5` of the full breakdown's length, is sorted by descending revenue,
  dominates every omitted entry, and breaks revenue ties by first-encountered
  order (its restriction to any fixed revenue value is a sublist of the
  insertion-ordered breakdown, whose key order is exactly the first-occurrence
  order of the scanned display names and whose entries carry the per-name
  quantity and revenue sums). -/
theorem agg_per_expansion_result (E : List Expansion) (orders : List Order) (expId : Nat)
    (exp : Expansion) (hfind : E.find? (fun e => e.id == expId) = some exp)
    (hq : ∀ it ∈ matchingItems (jsToLower exp.name) orders, it.quantity ≠ none) :
    (computeRow E orders expId).totalQty
      = ((matchingItems (jsToLower exp.name) orders).filterMap (fun it => it.quantity)).sum ∧
    (computeRow E orders expId).totalCents
      = ((matchingItems (jsToLower exp.name) orders).map
          (fun it => resolvePriceCents it * it.quantity.getD 0)).sum ∧
    (displayedBreakdown (computeRow E orders expId)).length
      = min 5 (computeRow E orders expId).cardBreakdown.length ∧
    List.Sorted centsDesc (displayedBreakdown (computeRow E orders expId)) ∧
    (∀ x ∈ (computeRow E orders expId).cardBreakdown,
        x ∉ displayedBreakdown (computeRow E orders expId) →
        ∀ y ∈ displayedBreakdown (computeRow E orders expId), x.cents ≤ y.cents) ∧
    (∀ c : Int,
        List.Sublist
          ((displayedBreakdown (computeRow E orders expId)).filter (fun e => e.cents == c))
          ((computeRow E orders expId).cardBreakdown.filter (fun e => e.cents == c))) ∧
    (computeRow E orders expId).cardBreakdown.map (fun e => e.name)
      = firstOccs ((matchingItems (jsToLower exp.name) orders).map displayName) ∧
    (∀ e ∈ (computeRow E orders expId).cardBreakdown,
        e.qty = itemsQtySum (matchingItems (jsToLower exp.name) orders) e.name ∧
        e.cents = itemsCentsSum (matchingItems (jsToLower exp.name) orders) e.name) := by
  have hrow := computeRow_of_find E orders expId exp hfind
  have hagg := aggregateExpansion_eq (jsToLower exp.name) orders
  have hbd : (computeRow E orders expId).cardBreakdown
      = ((matchingItems (jsToLower exp.name) orders).foldl scanStep ⟨0, 0, []⟩).breakdown := by
    rw [hrow, hagg]
  have htq : (computeRow E orders expId).totalQty
      = ((matchingItems (jsToLower exp.name) orders).foldl scanStep ⟨0, 0, []⟩).totalQty := by
    rw [hrow, hagg]
  have htc : (computeRow E orders expId).totalCents
      = ((matchingItems (jsToLower exp.name) orders).foldl scanStep ⟨0, 0, []⟩).totalCents := by
    rw [hrow, hagg]
  refine ⟨?_, ?_, ?_, ?_, ?_, ?_, ?_, ?_⟩
  · rw [htq, foldl_scanStep_totalQty, zero_add,
      sum_getD_eq_sum_filterMap (matchingItems (jsToLower exp.name) orders) hq]
  · rw [htc, foldl_scanStep_totalCents, zero_add]
    refine congrArg List.sum (List.map_congr_left ?_)
    intro it hit
    obtain ⟨q, hq2⟩ := Option.ne_none_iff_exists'.mp (hq it hit)
    rw [hq2]
    rfl
  · simp only [displayedBreakdown]
    rw [List.length_take, List.length_insertionSort]
  · simp only [displayedBreakdown]
    exact List.Pairwise.sublist (List.take_sublist 5 _)
      (List.sorted_insertionSort centsDesc _)
  · intro x hx hnx y hy
    simp only [displayedBreakdown] at hnx hy
    have hxs : x ∈ (computeRow E orders expId).cardBreakdown.insertionSort centsDesc :=
      (List.mem_insertionSort centsDesc).mpr hx
    rw [← List.take_append_drop 5
      ((computeRow E orders expId).cardBreakdown.insertionSort centsDesc)] at hxs
    have hxd : x ∈ ((computeRow E orders expId).cardBreakdown.insertionSort centsDesc).drop 5 :=
      (List.mem_append.mp hxs).resolve_left hnx
    have hpw : (((computeRow E orders expId).cardBreakdown.insertionSort centsDesc).take 5
        ++ ((computeRow E orders expId).cardBreakdown.insertionSort centsDesc).drop 5).Pairwise
          centsDesc := by
      rw [List.take_append_drop]
      exact List.sorted_insertionSort centsDesc _
    exact (List.pairwise_append.mp hpw).2.2 y hy x hxd
  · intro c
    simp only [displayedBreakdown]
    have hmemf : ∀ a ∈ (computeRow E orders expId).cardBreakdown.filter
        (fun e => e.cents == c), a.cents = c := by
      intro a ha
      simpa using (List.mem_filter.mp ha).2
    have hpairf : ((computeRow E orders expId).cardBreakdown.filter
        (fun e => e.cents == c)).Pairwise centsDesc := by
      refine List.pairwise_of_forall_mem_list ?_
      intro a ha b hb
      show b.cents ≤ a.cents
      rw [hmemf a ha, hmemf b hb]
    have hfsub := List.sublist_insertionSort hpairf
      (List.filter_sublist (computeRow E orders expId).cardBreakdown)
    have hff : ((computeRow E orders expId).cardBreakdown.filter
          (fun e => e.cents == c)).filter (fun e => e.cents == c)
        = (computeRow E orders expId).cardBreakdown.filter (fun e => e.cents == c) :=
      List.filter_eq_self.mpr (fun a ha => (List.mem_filter.mp ha).2)
    have hsub2 := hfsub.filter (fun e => e.cents == c)
    rw [hff] at hsub2
    have hperm := (List.perm_insertionSort centsDesc
      (computeRow E orders expId).cardBreakdown).filter (fun e => e.cents == c)
    have heq := hsub2.eq_of_length hperm.length_eq.symm
    have htake := (List.take_sublist 5
      ((computeRow E orders expId).cardBreakdown.insertionSort centsDesc)).filter
        (fun e => e.cents == c)
    rw [← heq] at htake
    exact htake
  · rw [hbd, scan_names_firstOccs]
  · intro e he
    have hnodup : ((computeRow E orders expId).cardBreakdown.map (fun e2 => e2.name)).Nodup := by
      rw [hbd, scan_names_firstOccs]
      exact firstOccs_nodup _
    have hlook := bdLookup_of_mem _ hnodup e he
    have h2 := foldl_scanStep_bdLookup (matchingItems (jsToLower exp.name) orders)
      ⟨0, 0, []⟩ e.name
    rw [← hbd] at h2
    have h3 : bdLookup (ExpAgg.mk 0 0 []).breakdown e.name = none := rfl
    rw [h3, hlook] at h2
    by_cases hfe : (matchingItems (jsToLower exp.name) orders).filter
        (fun it => displayName it = e.name) = []
    · rw [if_pos hfe] at h2
      cases h2
    · rw [if_neg hfe] at h2
      have h4 := Option.some.inj h2
      exact ⟨congrArg Prod.fst h4, congrArg Prod.snd h4⟩

/-- Witness for C1: expansion "Alpha" against two orders holding three line
items (one recorded as "ALPHA", exercising the case-insensitive match, and one
name aggregated across two records). -/
theorem agg_per_expansion_result_witness :
    (computeRow demoExps ordersW 10).totalQty
      = ((matchingItems (jsToLower expAlpha.name) ordersW).filterMap
          (fun it => it.quantity)).sum ∧
    (computeRow demoExps ordersW 10).totalCents
      = ((matchingItems (jsToLower expAlpha.name) ordersW).map
          (fun it => resolvePriceCents it * it.quantity.getD 0)).sum ∧
    (displayedBreakdown (computeRow demoExps ordersW 10)).length
      = min 5 (computeRow demoExps ordersW 10).cardBreakdown.length ∧
    List.Sorted centsDesc (displayedBreakdown (computeRow demoExps ordersW 10)) ∧
    (∀ x ∈ (computeRow demoExps ordersW 10).cardBreakdown,
        x ∉ displayedBreakdown (computeRow demoExps ordersW 10) →
        ∀ y ∈ displayedBreakdown (computeRow demoExps ordersW 10), x.cents ≤ y.cents) ∧
    (∀ c : Int,
        List.Sublist
          ((displayedBreakdown (computeRow demoExps ordersW 10)).filter
            (fun e => e.cents == c))
          ((computeRow demoExps ordersW 10).cardBreakdown.filter
            (fun e => e.cents == c))) ∧
    (computeRow demoExps ordersW 10).cardBreakdown.map (fun e => e.name)
      = firstOccs ((matchingItems (jsToLower expAlpha.name) ordersW).map displayName) ∧
    (∀ e ∈ (computeRow demoExps ordersW 10).cardBreakdown,
        e.qty = itemsQtySum (matchingItems (jsToLower expAlpha.name) ordersW) e.name ∧
        e.cents = itemsCentsSum (matchingItems (jsToLower expAlpha.name) ordersW) e.name) :=
  agg_per_expansion_result demoExps ordersW 10 expAlpha (by decide) (by decide)

end CardTraderSales
